import Mathlib

/-!
A shallow embedding of the `cardsharp` blackjack round engine
(`cardsharp/blackjack/state.py`, `cardsharp/blackjack/blackjack.py`) and of the
high-card variant (`cardsharp/high_card/high_card.py`), together with theorems
settling the specification claims about them.

Conventions of the embedding:
* Money amounts are rationals (`ℚ`): the Python code multiplies integer bets by
  the float `1.5`, which is exact for the values that occur.
* The deck is the list of ranks in the order they will be dealt (the state of
  the external `Deck` collaborator after `reset()` + `shuffle()`); suits never
  influence the round logic, so cards are identified with their ranks.
* Operations that call `deck.deal()` return `Option` and yield `none` when the
  deck is exhausted; the Python code treats that as a fatal error of the Deck
  collaborator.
* Console output (`io_interface.output`) carries no round logic and is dropped.
* Methods of `cardsharp/common` and `cardsharp/blackjack/actor.py` are not part
  of the given sources; each such method is modelled from the spec and marked
  `Modelled from the spec:` in its doc comment.
-/

namespace Cardsharp

/-- Card ranks (suits are irrelevant to every value computation). -/
inductive Rank where
  | ace | two | three | four | five | six | seven | eight | nine | ten
  | jack | queen | king
deriving DecidableEq

/-- Modelled from the spec: rank-specific numeric value counting every ace
as 1 (face cards = 10). -/
def Rank.minValue : Rank → Nat
  | .ace => 1
  | .two => 2
  | .three => 3
  | .four => 4
  | .five => 5
  | .six => 6
  | .seven => 7
  | .eight => 8
  | .nine => 9
  | .ten => 10
  | .jack => 10
  | .queen => 10
  | .king => 10

/-- The ace-minimal total of a hand (all aces counted as 1). -/
def handMin (cards : List Rank) : Nat :=
  (cards.map Rank.minValue).sum

/-- Whether the hand contains an ace. -/
def hasAce (cards : List Rank) : Bool :=
  cards.any (fun c => decide (c = Rank.ace))

/-- Modelled from the spec: the hand evaluator of `common/hand.py` (absent
from the given sources). It returns the ace-minimal total, upgraded by 10
when the hand holds an ace and the upgrade stays within 21 (at most one ace
can ever count as 11). -/
def handValue (cards : List Rank) : Nat :=
  if hasAce cards ∧ handMin cards + 10 ≤ 21 then handMin cards + 10
  else handMin cards

/-- Outcome tags, the values of `player.winner` (`"player"`, `"dealer"`,
`"draw"`; `None` is `Option.none`). -/
inductive Winner where
  | player | dealer | draw
deriving DecidableEq

/-- Player decisions returned by the external decision policy. -/
inductive Action where
  | hit | stand
deriving DecidableEq

/-- The round states of `state.py`, one class per constructor. -/
inductive RState where
  | waiting | placingBets | dealing | offeringInsurance
  | playersTurn | dealersTurn | endRound
deriving DecidableEq

/-- A blackjack player (`cardsharp/blackjack/actor.py`, used by `state.py`).
`policy` is the external decision strategy collaborator (`decide_action`). -/
structure Player where
  hand : List Rank := []
  bet : ℚ := 0
  money : ℚ := 0
  blackjack : Bool := false
  stood : Bool := false
  insurance : ℚ := 0
  winner : Option Winner := none
  policy : List Rank → Action := fun _ => Action.stand

/-- The dealer: a hand and an outcome tag (`game.dealer`). -/
structure DealerS where
  hand : List Rank := []
  winner : Option Winner := none

/-- The four counters of `SimulationStats`. -/
structure SimulationStats where
  gamesPlayed : Nat := 0
  playerWins : Nat := 0
  dealerWins : Nat := 0
  draws : Nat := 0
deriving DecidableEq

/-- The rejection notices `BlackjackGame.add_player` reports through the
output sink. -/
inductive Rejection where
  | invalidPlayer | gameFull | alreadyStarted
deriving DecidableEq

/-- `BlackjackGame`: players in seating order, the dealer, the deck, the
current state, the statistics and the `max_players` rule. -/
structure BJGame where
  players : List Player := []
  dealer : DealerS := {}
  deck : List Rank := []
  state : RState := RState.waiting
  stats : SimulationStats := {}
  maxPlayers : Nat := 6

/-- Modelled from the spec: `player.place_bet(amount)` — the player wagers
`amount`: the stake is escrowed out of the bankroll and recorded as the bet. -/
def placeBet (amount : ℚ) (p : Player) : Player :=
  { p with money := p.money - amount, bet := amount }

/-- `PlacingBetsState.handle`: every player places a bet of 10, then the
state becomes `DealingState`. -/
def placingBetsHandle (g : BJGame) : BJGame :=
  { g with players := g.players.map (placeBet 10), state := RState.dealing }

/-- One pass of `DealingState.deal`: one card to each player in seating
order, then one to the dealer; `none` if the deck runs out. -/
def dealToEach : List Player → List Rank → Option (List Player × List Rank)
  | [], deck => some ([], deck)
  | _ :: _, [] => none
  | p :: ps, c :: deck =>
    (dealToEach ps deck).map fun r =>
      ({ p with hand := p.hand ++ [c] } :: r.1, r.2)

/-- One round of the dealing loop (`for player in game.players + [game.dealer]`). -/
def dealStep (g : BJGame) : Option BJGame :=
  (dealToEach g.players g.deck).bind fun r =>
    match r.2 with
    | [] => none
    | c :: deck =>
      some { g with players := r.1,
                    dealer := { g.dealer with hand := g.dealer.hand ++ [c] },
                    deck := deck }

/-- `DealingState.deal`: two cards to every player and to the dealer,
alternating (`for _ in range(2)`). -/
def dealCards (g : BJGame) : Option BJGame :=
  (dealStep g).bind dealStep

/-- First loop of `DealingState.check_blackjack`: a player whose hand value
is 21 is paid `bet * 1.5`, flagged `blackjack = True` and tagged
`winner = "player"`. -/
def payBlackjack (p : Player) : Player :=
  if handValue p.hand = 21 then
    { p with money := p.money + p.bet * (3 / 2), blackjack := true,
             winner := some Winner.player }
  else p

/-- Second loop of `DealingState.check_blackjack` (dealer natural): for each
player in order, a blackjack holder increments `stats.draws` and clears the
`dealer_win` flag, any other player is tagged `winner = "dealer"`. Returns
the updated players, the total added to `stats.draws`, and the final
`dealer_win` flag. -/
def dealerNaturalScan : List Player → List Player × Nat × Bool
  | [] => ([], 0, true)
  | p :: ps =>
    let r := dealerNaturalScan ps
    if p.blackjack then (p :: r.1, r.2.1 + 1, false)
    else ({ p with winner := some Winner.dealer } :: r.1, r.2.1, r.2.2)

/-- `DealingState.check_blackjack`: pay player naturals, then if the dealer
hand values 21 run the dealer-natural loop and, when no player held a
blackjack, tag the dealer as winner. -/
def checkBlackjack (g : BJGame) : BJGame :=
  let players1 := g.players.map payBlackjack
  if handValue g.dealer.hand = 21 then
    let r := dealerNaturalScan players1
    { g with players := r.1,
             stats := { g.stats with draws := g.stats.draws + r.2.1 },
             dealer := if r.2.2 then { g.dealer with winner := some Winner.dealer }
                       else g.dealer }
  else { g with players := players1 }

/-- `DealingState.handle`: deal, check blackjacks, move to
`OfferInsuranceState`. (`deck.reset()`/`shuffle()` are the external Deck
collaborator: `g.deck` is the post-shuffle card sequence.) -/
def dealingHandle (g : BJGame) : Option BJGame :=
  (dealCards g).map fun g1 =>
    { checkBlackjack g1 with state := RState.offeringInsurance }

/-- Modelled from the spec: `dealer.has_ace()` — the dealer's visible card
(the first dealt card) is an ace. -/
def dealerHasAce (d : DealerS) : Bool :=
  decide (d.hand.head? = some Rank.ace)

/-- Modelled from the spec: `player.buy_insurance(amount)` — the player
wagers the fixed insurance stake: it leaves the bankroll and is recorded. -/
def buyInsurance (amount : ℚ) (p : Player) : Player :=
  { p with money := p.money - amount, insurance := amount }

/-- `OfferInsuranceState.offer_insurance` for one player: when the dealer
shows an ace the player buys insurance for 10; nothing else happens — in
particular no insurance payout or resolution occurs here. -/
def offerInsurance (g : BJGame) (p : Player) : Player :=
  if dealerHasAce g.dealer then buyInsurance 10 p else p

/-- `OfferInsuranceState.handle`: offer insurance to every player, then move
to `PlayersTurnState`. -/
def offerInsuranceHandle (g : BJGame) : BJGame :=
  { g with players := g.players.map (offerInsurance g),
           state := RState.playersTurn }

/-- Modelled from the spec: `player.is_done()` — the player's turn is over
once they stood, busted, or reached 21. -/
def isDone (p : Player) : Bool :=
  p.stood || decide (21 ≤ handValue p.hand)

/-- Modelled from the spec: `player.stand()` marks the player as standing. -/
def standP (p : Player) : Player :=
  { p with stood := true }

/-- The inner `while not player.is_done()` loop of `PlayersTurnState.handle`:
ask the policy, on `hit` draw a card (standing immediately on bust or 21),
on `stand` stand; `none` when a hit finds the deck empty. -/
def playerLoop : List Rank → Player → Option (Player × List Rank)
  | [], p =>
    if isDone p then some (p, [])
    else
      match p.policy p.hand with
      | Action.stand => some (standP p, [])
      | Action.hit => none
  | c :: deck, p =>
    if isDone p then some (p, c :: deck)
    else
      match p.policy p.hand with
      | Action.stand => some (standP p, c :: deck)
      | Action.hit =>
        let p1 := { p with hand := p.hand ++ [c] }
        if 21 < handValue p1.hand then some (standP p1, deck)
        else if handValue p1.hand = 21 then some (standP p1, deck)
        else playerLoop deck p1

/-- The outer loop of `PlayersTurnState.handle`: each player in seating
order plays their turn, threading the deck. -/
def playersLoop : List Player → List Rank → Option (List Player × List Rank)
  | [], deck => some ([], deck)
  | p :: ps, deck =>
    (playerLoop deck p).bind fun r =>
      (playersLoop ps r.2).map fun s => (r.1 :: s.1, s.2)

/-- `PlayersTurnState.handle`: run all player turns, then move to
`DealersTurnState`. -/
def playersTurnHandle (g : BJGame) : Option BJGame :=
  (playersLoop g.players g.deck).map fun r =>
    { g with players := r.1, deck := r.2, state := RState.dealersTurn }

/-- Modelled from the spec: `dealer.should_hit()` — true iff the evaluated
hand value is below 17 (hard threshold). -/
def shouldHit (hand : List Rank) : Bool :=
  decide (handValue hand < 17)

/-- The `while game.dealer.should_hit()` loop of `DealersTurnState.handle`:
draw while the policy says so; `none` when the deck runs out mid-loop. -/
def dealerLoop : List Rank → List Rank → Option (List Rank × List Rank)
  | [], hand => if shouldHit hand then none else some (hand, [])
  | c :: deck, hand =>
    if shouldHit hand then dealerLoop deck (hand ++ [c])
    else some (hand, c :: deck)

/-- `DealersTurnState.handle`: run the dealer loop, then move to
`EndRoundState`. -/
def dealersTurnHandle (g : BJGame) : Option BJGame :=
  (dealerLoop g.deck g.dealer.hand).map fun r =>
    { g with dealer := { g.dealer with hand := r.1 }, deck := r.2,
             state := RState.endRound }

/-- The per-player body of `EndRoundState.calculate_winner`: bust loses,
then dealer-bust-or-higher-value wins `bet * 2`, then lower value loses,
otherwise push returns the bet. -/
def settlePlayer (dealerValue : Nat) (p : Player) : Player :=
  if handValue p.hand > 21 then { p with winner := some Winner.dealer }
  else if dealerValue > 21 ∨ handValue p.hand > dealerValue then
    { p with money := p.money + p.bet * 2, winner := some Winner.player }
  else if handValue p.hand < dealerValue then
    { p with winner := some Winner.dealer }
  else { p with money := p.money + p.bet, winner := some Winner.draw }

/-- `EndRoundState.calculate_winner`: settle every player against the final
dealer hand value, then re-initialize the state to `PlacingBetsState`. -/
def calculateWinner (g : BJGame) : BJGame :=
  { g with players := g.players.map (settlePlayer (handValue g.dealer.hand)),
           state := RState.placingBets }

/-- `SimulationStats.update(game)`: bump `games_played`, bump each outcome
counter when some player carries that tag, then reset every player's tag. -/
def statsUpdate (g : BJGame) : BJGame :=
  let playerWin := g.players.any fun p => decide (p.winner = some Winner.player)
  let dealerWin := g.players.any fun p => decide (p.winner = some Winner.dealer)
  let draw := g.players.any fun p => decide (p.winner = some Winner.draw)
  let stats1 : SimulationStats :=
    { gamesPlayed := g.stats.gamesPlayed + 1,
      playerWins := g.stats.playerWins + (if playerWin then 1 else 0),
      dealerWins := g.stats.dealerWins + (if dealerWin then 1 else 0),
      draws := g.stats.draws + (if draw then 1 else 0) }
  { g with stats := stats1,
           players := g.players.map fun p => { p with winner := none } }

/-- `EndRoundState.handle`: `calculate_winner` (which already re-initializes
the state) followed by `stats.update`. -/
def endRoundHandle (g : BJGame) : BJGame :=
  statsUpdate (calculateWinner g)

/-- `BlackjackGame.add_player`: a `None` player, a full game
(`len(players) >= max_players`), or a game no longer in
`WaitingForPlayersState` is rejected with a notice and no change; otherwise
the player is appended. -/
def addPlayer (g : BJGame) (p : Option Player) : BJGame × Option Rejection :=
  match p with
  | none => (g, some Rejection.invalidPlayer)
  | some p =>
    if g.players.length ≥ g.maxPlayers then (g, some Rejection.gameFull)
    else if g.state ≠ RState.waiting then (g, some Rejection.alreadyStarted)
    else ({ g with players := g.players ++ [p] }, none)


/-! ### The high-card variant (`cardsharp/high_card/high_card.py`) -/

/-- `HighCardGameState`: the stats dictionaries, keyed by player name.
Player names are embedded as `Nat` identifiers; every read in the source
goes through `.get(name, 0)`, so each dictionary is modelled as the total
function taking the default 0 outside its keys. -/
structure HCState where
  roundsPlayed : Nat := 0
  wins : Nat → Nat := fun _ => 0
  currentStreak : Nat → Nat := fun _ => 0
  maxStreak : Nat → Nat := fun _ => 0

/-- The winner scan of `HighCardGame.play_round`: each entry is
`(player, rank drawn)` in the shuffled seating order; the first player
strictly exceeding the running high card replaces it. -/
def highCardWinner (draws : List (Nat × Nat)) : Option (Nat × Nat) :=
  draws.foldl
    (fun acc d =>
      match acc with
      | none => some d
      | some h => if h.2 < d.2 then some d else some h)
    none

/-- The `update_state` call of `HighCardGame.play_round`, written pointwise:
the winner's win count and streak grow by one, every other streak resets to
0, the winner's max streak becomes the larger of its old value and the new
streak, and every other max streak is re-read unchanged. -/
def hcUpdate (st : HCState) (w : Nat) : HCState :=
  { roundsPlayed := st.roundsPlayed + 1,
    wins := fun n => if n = w then st.wins w + 1 else st.wins n,
    currentStreak := fun n => if n = w then st.currentStreak w + 1 else 0,
    maxStreak := fun n =>
      if n = w then max (st.maxStreak w) (st.currentStreak w + 1)
      else st.maxStreak n }

/-- `HighCardGame.play_round` restricted to its statistics effect: when the
scan produces a winner the state is updated, otherwise it is untouched. -/
def hcPlayRound (st : HCState) (draws : List (Nat × Nat)) : HCState :=
  match highCardWinner draws with
  | none => st
  | some h => hcUpdate st h.1

/-! ### Theorems for the claims -/

/-- C2: every player settled at `EndRoundState.calculate_winner` is settled
against the final dealer hand value by exactly this case analysis: bust
(value over 21) loses with no payout; otherwise dealer bust or a strictly
greater player value wins `bet * 2`; otherwise a strictly smaller player
value loses with no payout; otherwise (equal, neither bust) it is a draw
returning `bet * 1`. -/
theorem settle_cases :
    (∀ g : BJGame, (calculateWinner g).players
        = g.players.map (settlePlayer (handValue g.dealer.hand))) ∧
    ∀ (dv : Nat) (p : Player),
      (21 < handValue p.hand →
        (settlePlayer dv p).winner = some Winner.dealer ∧
        (settlePlayer dv p).money = p.money) ∧
      (handValue p.hand ≤ 21 → (21 < dv ∨ dv < handValue p.hand) →
        (settlePlayer dv p).winner = some Winner.player ∧
        (settlePlayer dv p).money = p.money + p.bet * 2) ∧
      (handValue p.hand ≤ 21 → dv ≤ 21 → handValue p.hand < dv →
        (settlePlayer dv p).winner = some Winner.dealer ∧
        (settlePlayer dv p).money = p.money) ∧
      (handValue p.hand ≤ 21 → dv ≤ 21 → handValue p.hand = dv →
        (settlePlayer dv p).winner = some Winner.draw ∧
        (settlePlayer dv p).money = p.money + p.bet) := by
  refine ⟨fun g => rfl, fun dv p => ?_⟩
  refine ⟨fun h => ?_, fun h1 h2 => ?_, fun h1 h2 h3 => ?_, fun h1 h2 h3 => ?_⟩ <;>
    simp only [settlePlayer]
  · rw [if_pos (by omega)]
    exact ⟨rfl, rfl⟩
  · rw [if_neg (by omega), if_pos (by omega)]
    exact ⟨rfl, rfl⟩
  · rw [if_neg (by omega), if_neg (by omega), if_pos (by omega)]
    exact ⟨rfl, rfl⟩
  · rw [if_neg (by omega), if_neg (by omega), if_neg (by omega)]
    exact ⟨rfl, rfl⟩

/-- Witness for C2: each branch of the settlement at concrete inputs
(player 19 vs dealer 18, player 22 bust, player 16 vs dealer 20,
both at 19). -/
theorem settle_cases_witness :
    (settlePlayer 18 { hand := [Rank.ten, Rank.nine] }).winner = some Winner.player ∧
    (settlePlayer 18 { hand := [Rank.ten, Rank.six, Rank.six] }).winner = some Winner.dealer ∧
    (settlePlayer 20 { hand := [Rank.ten, Rank.six] }).winner = some Winner.dealer ∧
    (settlePlayer 19 { hand := [Rank.ten, Rank.nine] }).winner = some Winner.draw :=
  ⟨((settle_cases.2 18 _).2.1 (by decide) (Or.inr (by decide))).1,
   ((settle_cases.2 18 _).1 (by decide)).1,
   ((settle_cases.2 20 _).2.2.1 (by decide) (by decide) (by decide)).1,
   ((settle_cases.2 19 _).2.2.2 (by decide) (by decide) (by decide)).1⟩

/-- Helper: a completed dealer loop ends with hand value at least 17. -/
theorem dealerLoop_ge (deck : List Rank) :
    ∀ (hand : List Rank) (r : List Rank × List Rank),
      dealerLoop deck hand = some r → 17 ≤ handValue r.1 := by
  induction deck with
  | nil =>
    intro hand r h
    by_cases hs : shouldHit hand = true
    · simp [dealerLoop, hs] at h
    · simp [dealerLoop, hs] at h
      simp only [shouldHit, decide_eq_true_eq] at hs
      subst h
      dsimp only
      omega
  | cons c deck ih =>
    intro hand r h
    by_cases hs : shouldHit hand = true
    · simp only [dealerLoop, hs, if_true] at h
      exact ih (hand ++ [c]) r h
    · simp [dealerLoop, hs] at h
      simp only [shouldHit, decide_eq_true_eq] at hs
      subst h
      dsimp only
      omega

/-- C6: with the dealer policy modelled as "hit iff value < 17"
(`shouldHit`), the dealer loop never draws from a hand valued 17 or more,
and whenever `DealersTurnState` completes the final dealer hand value is at
least 17 (possibly a bust value over 21). -/
theorem dealer_policy_threshold :
    (∀ (deck hand : List Rank) (r : List Rank × List Rank),
        dealerLoop deck hand = some r → 17 ≤ handValue r.1) ∧
    (∀ (deck hand : List Rank), 17 ≤ handValue hand →
        dealerLoop deck hand = some (hand, deck)) ∧
    (∀ g g' : BJGame, dealersTurnHandle g = some g' →
        17 ≤ handValue g'.dealer.hand) := by
  have hstand : ∀ (deck hand : List Rank), 17 ≤ handValue hand →
      dealerLoop deck hand = some (hand, deck) := by
    intro deck hand h
    have hs : shouldHit hand = false := by
      simp only [shouldHit, decide_eq_false_iff_not]
      omega
    cases deck <;> simp [dealerLoop, hs]
  refine ⟨fun deck hand r h => dealerLoop_ge deck hand r h, hstand, ?_⟩
  intro g g' h
  obtain ⟨r, hr, rfl⟩ := Option.map_eq_some'.mp h
  exact dealerLoop_ge g.deck g.dealer.hand r hr

/-- Witness for C6: the loop on dealer 16 with a six on top ends at 22;
the loop on dealer 17 draws nothing; a completed `DealersTurnState` on a
concrete game leaves the dealer at 17 or more. -/
theorem dealer_policy_threshold_witness :
    17 ≤ handValue [Rank.ten, Rank.six, Rank.six] ∧
    dealerLoop [Rank.five] [Rank.ten, Rank.seven]
      = some ([Rank.ten, Rank.seven], [Rank.five]) ∧
    17 ≤ handValue
      ((dealersTurnHandle
          { dealer := { hand := [Rank.ten, Rank.six] },
            deck := [Rank.six] }).getD {}).dealer.hand :=
  ⟨dealer_policy_threshold.1 [Rank.six] [Rank.ten, Rank.six]
      ([Rank.ten, Rank.six, Rank.six], []) (by decide),
   dealer_policy_threshold.2.1 [Rank.five] [Rank.ten, Rank.seven] (by decide),
   dealer_policy_threshold.2.2
      { dealer := { hand := [Rank.ten, Rank.six] }, deck := [Rank.six] } _ rfl⟩

/-- C9: one `SimulationStats.update` call bumps `games_played` by exactly
one, bumps each outcome counter by one exactly when some player carries
that tag (so by at most one however many players there are), and resets
the winner tag of every player to `None`. -/
theorem stats_update_once (g : BJGame) :
    (statsUpdate g).stats.gamesPlayed = g.stats.gamesPlayed + 1 ∧
    (statsUpdate g).stats.playerWins = g.stats.playerWins +
      (if g.players.any (fun p => decide (p.winner = some Winner.player)) then 1 else 0) ∧
    (statsUpdate g).stats.dealerWins = g.stats.dealerWins +
      (if g.players.any (fun p => decide (p.winner = some Winner.dealer)) then 1 else 0) ∧
    (statsUpdate g).stats.draws = g.stats.draws +
      (if g.players.any (fun p => decide (p.winner = some Winner.draw)) then 1 else 0) ∧
    (statsUpdate g).stats.playerWins ≤ g.stats.playerWins + 1 ∧
    (statsUpdate g).stats.dealerWins ≤ g.stats.dealerWins + 1 ∧
    (statsUpdate g).stats.draws ≤ g.stats.draws + 1 ∧
    ((statsUpdate g).players.all fun p => decide (p.winner = none)) = true := by
  refine ⟨rfl, rfl, rfl, rfl, ?_, ?_, ?_, ?_⟩
  · simp only [statsUpdate]
    split <;> omega
  · simp only [statsUpdate]
    split <;> omega
  · simp only [statsUpdate]
    split <;> omega
  · simp [statsUpdate, List.all_eq_true]

/-- C10: a high-card round that produces a winner bumps `rounds_played` and
the win count of the winner by exactly one, extends the streak of the winner by one
while resetting every other streak to zero, and never decreases the
max streak of any player. -/
theorem high_card_round_stats (st : HCState) (draws : List (Nat × Nat))
    (w r : Nat) (h : highCardWinner draws = some (w, r)) :
    (hcPlayRound st draws).roundsPlayed = st.roundsPlayed + 1 ∧
    (hcPlayRound st draws).wins w = st.wins w + 1 ∧
    (hcPlayRound st draws).currentStreak w = st.currentStreak w + 1 ∧
    (∀ n, n ≠ w → (hcPlayRound st draws).currentStreak n = 0) ∧
    (∀ n, st.maxStreak n ≤ (hcPlayRound st draws).maxStreak n) := by
  simp only [hcPlayRound, h]
  refine ⟨rfl, by simp [hcUpdate], by simp [hcUpdate], ?_, ?_⟩
  · intro n hn
    simp [hcUpdate, hn]
  · intro n
    by_cases hn : n = w
    · subst hn
      simp [hcUpdate]
    · simp [hcUpdate, hn]

/-- Witness for C10: two players draw ranks 5 and 9; player 1 wins the
round and the statistics move as stated. -/
theorem high_card_round_stats_witness :
    (hcPlayRound {} [(0, 5), (1, 9)]).roundsPlayed = 0 + 1 ∧
    (hcPlayRound {} [(0, 5), (1, 9)]).wins 1 = 0 + 1 ∧
    (hcPlayRound {} [(0, 5), (1, 9)]).currentStreak 0 = 0 :=
  ⟨(high_card_round_stats {} [(0, 5), (1, 9)] 1 9 rfl).1,
   (high_card_round_stats {} [(0, 5), (1, 9)] 1 9 rfl).2.1,
   (high_card_round_stats {} [(0, 5), (1, 9)] 1 9 rfl).2.2.2.1 0 (by decide)⟩

/-- Helper: the dealer-natural loop keeps the player list length. -/
theorem dealerNaturalScan_length (ps : List Player) :
    (dealerNaturalScan ps).1.length = ps.length := by
  induction ps with
  | nil => rfl
  | cons p ps ih =>
    by_cases hb : p.blackjack = true <;> simp [dealerNaturalScan, hb, ih]

/-- Helper: dealing one card to each player keeps the list length. -/
theorem dealToEach_length :
    ∀ (ps : List Player) (deck : List Rank) (r : List Player × List Rank),
      dealToEach ps deck = some r → r.1.length = ps.length := by
  intro ps
  induction ps with
  | nil =>
    intro deck r h
    simp only [dealToEach, Option.some.injEq] at h
    subst h
    rfl
  | cons p ps ih =>
    intro deck r h
    cases deck with
    | nil => simp [dealToEach] at h
    | cons c deck =>
      simp only [dealToEach, Option.map_eq_some'] at h
      obtain ⟨a, ha, hr⟩ := h
      subst hr
      simp [ih deck a ha]

/-- Helper: one dealing pass keeps the player count and the statistics. -/
theorem dealStep_preserves (g g' : BJGame) (h : dealStep g = some g') :
    g'.players.length = g.players.length ∧ g'.stats = g.stats := by
  simp only [dealStep, Option.bind_eq_some] at h
  obtain ⟨r, hr, h2⟩ := h
  cases hrest : r.2 with
  | nil => rw [hrest] at h2; simp at h2
  | cons c deck =>
    rw [hrest] at h2
    simp only [Option.some.injEq] at h2
    subst h2
    exact ⟨dealToEach_length g.players g.deck r hr, rfl⟩

/-- Helper: the two dealing passes keep the player count and statistics. -/
theorem dealCards_preserves (g g' : BJGame) (h : dealCards g = some g') :
    g'.players.length = g.players.length ∧ g'.stats = g.stats := by
  simp only [dealCards, Option.bind_eq_some] at h
  obtain ⟨m, hm, h2⟩ := h
  obtain ⟨l1, s1⟩ := dealStep_preserves g m hm
  obtain ⟨l2, s2⟩ := dealStep_preserves m g' h2
  exact ⟨l2.trans l1, s2.trans s1⟩

/-- Helper: the blackjack check keeps the player count. -/
theorem checkBlackjack_players_length (g : BJGame) :
    (checkBlackjack g).players.length = g.players.length := by
  by_cases hd : handValue g.dealer.hand = 21 <;>
    simp [checkBlackjack, hd, dealerNaturalScan_length]

/-- Helper: a completed player turn loop keeps the player count. -/
theorem playersLoop_length :
    ∀ (ps : List Player) (deck : List Rank) (r : List Player × List Rank),
      playersLoop ps deck = some r → r.1.length = ps.length := by
  intro ps
  induction ps with
  | nil =>
    intro deck r h
    simp only [playersLoop, Option.some.injEq] at h
    subst h
    rfl
  | cons p ps ih =>
    intro deck r h
    simp only [playersLoop, Option.bind_eq_some, Option.map_eq_some'] at h
    obtain ⟨a, _, b, hb, hr⟩ := h
    subst hr
    simp [ih a.2 b hb]

/-- C7: each round handler moves to exactly its designated successor:
PlacingBets → Dealing → OfferingInsurance → PlayersTurn → DealersTurn →
EndRound, and EndRound re-initializes to PlacingBets; the game holds a
single current state, so no other transition is reachable from these
handlers. -/
theorem round_state_transitions :
    (∀ g : BJGame, (placingBetsHandle g).state = RState.dealing) ∧
    (∀ g g' : BJGame, dealingHandle g = some g' →
        g'.state = RState.offeringInsurance) ∧
    (∀ g : BJGame, (offerInsuranceHandle g).state = RState.playersTurn) ∧
    (∀ g g' : BJGame, playersTurnHandle g = some g' →
        g'.state = RState.dealersTurn) ∧
    (∀ g g' : BJGame, dealersTurnHandle g = some g' →
        g'.state = RState.endRound) ∧
    (∀ g : BJGame, (endRoundHandle g).state = RState.placingBets) := by
  refine ⟨fun g => rfl, ?_, fun g => rfl, ?_, ?_, fun g => rfl⟩ <;>
  · intro g g' h
    obtain ⟨x, _, rfl⟩ := Option.map_eq_some'.mp h
    rfl

/-- A concrete one-player game driven through a full round (player stands
at 18, dealer draws from 16 to 22). -/
def gwStart : BJGame :=
  { players := [{ money := 100 }],
    deck := [Rank.ten, Rank.nine, Rank.eight, Rank.seven, Rank.six, Rank.five],
    state := RState.placingBets }

def gw1 : BJGame := placingBetsHandle gwStart

def gw2 : BJGame := (dealingHandle gw1).getD gw1

def gw3 : BJGame := offerInsuranceHandle gw2

def gw4 : BJGame := (playersTurnHandle gw3).getD gw3

def gw5 : BJGame := (dealersTurnHandle gw4).getD gw4

def gw6 : BJGame := endRoundHandle gw5

/-- Witness for C7: the concrete round above passes through the six
designated states in order. -/
theorem round_state_transitions_witness :
    gw1.state = RState.dealing ∧ gw2.state = RState.offeringInsurance ∧
    gw3.state = RState.playersTurn ∧ gw4.state = RState.dealersTurn ∧
    gw5.state = RState.endRound ∧ gw6.state = RState.placingBets :=
  ⟨round_state_transitions.1 gwStart,
   round_state_transitions.2.1 gw1 gw2 rfl,
   round_state_transitions.2.2.1 gw2,
   round_state_transitions.2.2.2.1 gw3 gw4 rfl,
   round_state_transitions.2.2.2.2.1 gw4 gw5 rfl,
   round_state_transitions.2.2.2.2.2 gw5⟩

/-- C8: `add_player` on a full game or outside `WaitingForPlayersState` is
a rejected no-op (a notice, no exception, no change), and every operation
preserves the invariant `players.length ≤ maxPlayers` (the handlers never
change the player count, `add_player` only grows it below the limit). -/
theorem add_player_rejections :
    (∀ (g : BJGame) (p : Player),
        g.maxPlayers ≤ g.players.length ∨ g.state ≠ RState.waiting →
        (addPlayer g (some p)).1 = g ∧ (addPlayer g (some p)).2.isSome = true) ∧
    (∀ (g : BJGame) (po : Option Player),
        g.players.length ≤ g.maxPlayers →
        (addPlayer g po).1.players.length ≤ (addPlayer g po).1.maxPlayers) ∧
    (∀ g : BJGame,
        (placingBetsHandle g).players.length = g.players.length ∧
        (offerInsuranceHandle g).players.length = g.players.length ∧
        (checkBlackjack g).players.length = g.players.length ∧
        (calculateWinner g).players.length = g.players.length ∧
        (endRoundHandle g).players.length = g.players.length) ∧
    (∀ g g' : BJGame, dealingHandle g = some g' →
        g'.players.length = g.players.length) ∧
    (∀ g g' : BJGame, playersTurnHandle g = some g' →
        g'.players.length = g.players.length) ∧
    (∀ g g' : BJGame, dealersTurnHandle g = some g' →
        g'.players.length = g.players.length) := by
  refine ⟨?_, ?_, ?_, ?_, ?_, ?_⟩
  · intro g p h
    by_cases hfull : g.players.length ≥ g.maxPlayers
    · simp only [addPlayer]
      rw [if_pos hfull]
      exact ⟨rfl, rfl⟩
    · rcases h with h | h
      · omega
      · simp only [addPlayer]
        rw [if_neg hfull, if_pos h]
        exact ⟨rfl, rfl⟩
  · intro g po h
    cases po with
    | none => exact h
    | some p =>
      simp only [addPlayer]
      split_ifs with h1 h2
      · exact h
      · exact h
      · simp only [List.length_append, List.length_cons, List.length_nil]
        omega
  · intro g
    refine ⟨by simp [placingBetsHandle], by simp [offerInsuranceHandle],
            checkBlackjack_players_length g, by simp [calculateWinner], ?_⟩
    simp [endRoundHandle, statsUpdate, calculateWinner]
  · intro g g' h
    obtain ⟨x, hx, rfl⟩ := Option.map_eq_some'.mp h
    have := dealCards_preserves g x hx
    simpa [checkBlackjack_players_length] using this.1
  · intro g g' h
    obtain ⟨x, hx, rfl⟩ := Option.map_eq_some'.mp h
    exact playersLoop_length g.players g.deck x hx
  · intro g g' h
    obtain ⟨x, _, rfl⟩ := Option.map_eq_some'.mp h
    rfl

/-- A full two-seat game still waiting for players. -/
def gwFull : BJGame :=
  { players := [{}, {}], maxPlayers := 2, state := RState.waiting }

/-- Witness for C8: adding to the full game is rejected and unchanged;
adding to the one-player game keeps the invariant; the concrete dealing
step keeps the player count. -/
theorem add_player_rejections_witness :
    (addPlayer gwFull (some {})).1 = gwFull ∧
    (addPlayer gwFull (some {})).2.isSome = true ∧
    (addPlayer gwStart (some {})).1.players.length ≤
      (addPlayer gwStart (some {})).1.maxPlayers ∧
    gw2.players.length = gw1.players.length :=
  ⟨(add_player_rejections.1 gwFull {} (Or.inl (by decide))).1,
   (add_player_rejections.1 gwFull {} (Or.inl (by decide))).2,
   add_player_rejections.2.1 gwStart (some {}) (by decide),
   add_player_rejections.2.2.2.1 gw1 gw2 rfl⟩

/-- C5 (amended): the four counters are monotone under every modelled
operation, and `games_played`, `player_wins` and `dealer_wins` move only at
the EndRound stats update; `draws`, however, is additionally incremented
during `DealingState.check_blackjack` — by one per blackjack-holding player
— whenever the dealer holds a natural. -/
theorem stats_counter_sites :
    (∀ g : BJGame,
        (placingBetsHandle g).stats = g.stats ∧
        (offerInsuranceHandle g).stats = g.stats ∧
        (calculateWinner g).stats = g.stats) ∧
    (∀ g g' : BJGame, playersTurnHandle g = some g' → g'.stats = g.stats) ∧
    (∀ g g' : BJGame, dealersTurnHandle g = some g' → g'.stats = g.stats) ∧
    (∀ g : BJGame,
        (checkBlackjack g).stats.gamesPlayed = g.stats.gamesPlayed ∧
        (checkBlackjack g).stats.playerWins = g.stats.playerWins ∧
        (checkBlackjack g).stats.dealerWins = g.stats.dealerWins ∧
        (checkBlackjack g).stats.draws = g.stats.draws +
          (if handValue g.dealer.hand = 21
           then (dealerNaturalScan (g.players.map payBlackjack)).2.1 else 0)) ∧
    (∀ g g' : BJGame, dealingHandle g = some g' →
        g'.stats.gamesPlayed = g.stats.gamesPlayed ∧
        g'.stats.playerWins = g.stats.playerWins ∧
        g'.stats.dealerWins = g.stats.dealerWins ∧
        g.stats.draws ≤ g'.stats.draws) ∧
    (∀ g : BJGame,
        (statsUpdate g).stats.gamesPlayed = g.stats.gamesPlayed + 1 ∧
        g.stats.playerWins ≤ (statsUpdate g).stats.playerWins ∧
        (statsUpdate g).stats.playerWins ≤ g.stats.playerWins + 1 ∧
        g.stats.dealerWins ≤ (statsUpdate g).stats.dealerWins ∧
        (statsUpdate g).stats.dealerWins ≤ g.stats.dealerWins + 1 ∧
        g.stats.draws ≤ (statsUpdate g).stats.draws ∧
        (statsUpdate g).stats.draws ≤ g.stats.draws + 1) := by
  have hcheck : ∀ g : BJGame,
      (checkBlackjack g).stats.gamesPlayed = g.stats.gamesPlayed ∧
      (checkBlackjack g).stats.playerWins = g.stats.playerWins ∧
      (checkBlackjack g).stats.dealerWins = g.stats.dealerWins ∧
      (checkBlackjack g).stats.draws = g.stats.draws +
        (if handValue g.dealer.hand = 21
         then (dealerNaturalScan (g.players.map payBlackjack)).2.1 else 0) := by
    intro g
    by_cases hd : handValue g.dealer.hand = 21 <;>
      simp [checkBlackjack, hd]
  refine ⟨fun g => ⟨rfl, rfl, rfl⟩, ?_, ?_, hcheck, ?_, ?_⟩
  · intro g g' h
    obtain ⟨x, _, rfl⟩ := Option.map_eq_some'.mp h
    rfl
  · intro g g' h
    obtain ⟨x, _, rfl⟩ := Option.map_eq_some'.mp h
    rfl
  · intro g g' h
    obtain ⟨x, hx, rfl⟩ := Option.map_eq_some'.mp h
    have hst := (dealCards_preserves g x hx).2
    obtain ⟨h1, h2, h3, h4⟩ := hcheck x
    rw [hst] at h1 h2 h3
    refine ⟨h1, h2, h3, ?_⟩
    rw [h4, hst]
    omega
  · intro g
    refine ⟨rfl, ?_, ?_, ?_, ?_, ?_, ?_⟩ <;>
    · simp only [statsUpdate]
      split <;> omega

/-- Witness for C5 (amended): on the concrete round, the player and dealer
turns leave the statistics untouched and dealing keeps `games_played`. -/
theorem stats_counter_sites_witness :
    gw4.stats = gw3.stats ∧ gw5.stats = gw4.stats ∧
    gw2.stats.gamesPlayed = gw1.stats.gamesPlayed :=
  ⟨stats_counter_sites.2.1 gw3 gw4 rfl,
   stats_counter_sites.2.2.1 gw4 gw5 rfl,
   (stats_counter_sites.2.2.2.2.1 gw1 gw2 rfl).1⟩

/-- The concrete game refuting C5 as literally stated: the dealer holds a
natural and the sole player a blackjack; already during the Dealing-phase
blackjack check — not at the EndRound stats update — the `draws` counter
moves from 0 to 1. -/
def cg5 : BJGame :=
  { players := [{ hand := [Rank.ace, Rank.king], bet := 10, money := 90 }],
    dealer := { hand := [Rank.ace, Rank.queen] },
    state := RState.dealing }

/-- Counterexample for C5: `check_blackjack` (run in `DealingState`, before
any `SimulationStats.update` call) already changes the `draws` counter. -/
theorem stats_updated_during_dealing :
    cg5.state = RState.dealing ∧ cg5.stats.draws = 0 ∧
    (checkBlackjack cg5).stats.draws = 1 := by
  refine ⟨rfl, rfl, ?_⟩
  decide

/-- The round refuting the exclusion in C1: the sole player is dealt a
natural (ace, king) while the dealer ends at 18. -/
def cg1 : BJGame :=
  { players := [{ money := 100 }],
    deck := [Rank.ace, Rank.ten, Rank.king, Rank.eight],
    state := RState.placingBets }

def cg1dealt : BJGame := (dealingHandle (placingBetsHandle cg1)).getD cg1

def cg1insured : BJGame := offerInsuranceHandle cg1dealt

def cg1played : BJGame := (playersTurnHandle cg1insured).getD cg1insured

def cg1final : BJGame := (dealersTurnHandle cg1played).getD cg1played

/-- C1 evaluated at the failing input: the player resolved during dealing
(blackjack paid 15 on a bet of 10, tagged player-wins) reaches EndRound
still flagged, and `calculate_winner` settles them again — 21 beats the
dealer 18, so a second payout of `bet * 2` lands (money 105 → 125). The
settlement does not exclude already-resolved players, so an
already-resolved player is double-paid. -/
theorem blackjack_player_settled_twice :
    cg1dealt.players.map (fun p => (p.winner, p.blackjack))
      = [(some Winner.player, true)] ∧
    cg1dealt.players.map Player.money = [105] ∧
    handValue cg1final.dealer.hand = 18 ∧
    cg1final.players.map (fun p => (p.winner, p.blackjack))
      = [(some Winner.player, true)] ∧
    (calculateWinner cg1final).players.map Player.money = [125] := by
  refine ⟨by decide, ?_, by decide, by decide, ?_⟩
  · simp only [cg1dealt, cg1, placingBetsHandle, placeBet, dealingHandle,
      dealCards, dealStep, dealToEach, checkBlackjack, payBlackjack,
      dealerNaturalScan, handValue, hasAce, handMin, Rank.minValue,
      List.map, List.any, List.sum, Option.map, Option.bind, Option.getD]
    norm_num
  · simp [cg1final, cg1played, cg1insured, cg1dealt, cg1,
      placingBetsHandle, placeBet, dealingHandle, dealCards, dealStep,
      dealToEach, checkBlackjack, payBlackjack, dealerNaturalScan,
      offerInsuranceHandle, offerInsurance, dealerHasAce, buyInsurance,
      playersTurnHandle, playersLoop, playerLoop, isDone, standP,
      dealersTurnHandle, dealerLoop, shouldHit, calculateWinner,
      settlePlayer, handValue, hasAce, handMin, Rank.minValue]
    norm_num

/-- The round refuting C3: the sole player is dealt 9,7 while the dealer
shows an ace over a two-card natural (ace, king). -/
def cg3 : BJGame :=
  { players := [{ money := 100 }],
    deck := [Rank.nine, Rank.ace, Rank.seven, Rank.king],
    state := RState.placingBets }

def cg3dealt : BJGame := (dealingHandle (placingBetsHandle cg3)).getD cg3

/-- C3 evaluated at the failing input: at the insurance-offer step, with
the dealer showing an ace over a two-card natural, the code only deducts
the fixed stake of 10 (money 90 → 80) and records it; no 2:1 insurance
payout is computed there or anywhere after — the claimed resolution
(money 90 → 110, the stake returned plus twice the stake) never happens. -/
theorem insurance_not_resolved_at_offer :
    handValue cg3dealt.dealer.hand = 21 ∧
    cg3dealt.dealer.hand.length = 2 ∧
    dealerHasAce cg3dealt.dealer = true ∧
    cg3dealt.players.map Player.money = [90] ∧
    (offerInsuranceHandle cg3dealt).players.map
      (fun p => (p.money, p.insurance)) = [(80, 10)] ∧
    (offerInsuranceHandle cg3dealt).players.map Player.money ≠ [110] := by
  refine ⟨by decide, by decide, by decide, ?_, ?_, ?_⟩ <;>
  · norm_num [cg3dealt, cg3, placingBetsHandle, placeBet, dealingHandle,
      dealCards, dealStep, dealToEach, checkBlackjack, payBlackjack,
      dealerNaturalScan, offerInsuranceHandle, offerInsurance, dealerHasAce,
      buyInsurance, handValue, hasAce, handMin, Rank.minValue]

/-- The round refuting the draw-tagging half of C4: the first player and
the dealer both hold naturals; the second player holds 16. -/
def cg4 : BJGame :=
  { players := [{ money := 100 }, { money := 100 }],
    deck := [Rank.ace, Rank.nine, Rank.ace, Rank.king, Rank.seven, Rank.queen],
    state := RState.placingBets }

def cg4dealt : BJGame := (dealingHandle (placingBetsHandle cg4)).getD cg4

/-- C4 evaluated at the failing input: after the dealing-phase blackjack
check with dealer and first player both holding naturals, the non-blackjack
player is tagged dealer-wins (as claimed), but the blackjack-holding player
keeps the tag player-wins — it is never re-tagged draw; the tie is only
counted directly into `stats.draws`. -/
theorem blackjack_tie_not_tagged_draw :
    handValue cg4dealt.dealer.hand = 21 ∧
    cg4dealt.players.map (fun p => (p.blackjack, p.winner))
      = [(true, some Winner.player), (false, some Winner.dealer)] ∧
    cg4dealt.players.map Player.winner
      ≠ [some Winner.draw, some Winner.dealer] ∧
    cg4dealt.stats.draws = 1 :=
  ⟨by decide, by decide, by decide, by decide⟩

end Cardsharp
